import Mathlib

/-! Verification development for the p2pIM repository (message codec, nonce
miner and server admission engine).  The Python sources `messages.py`,
`server1.py` and `generate1.py` are shallowly embedded below: byte strings
become `List Nat` (each entry < 256), text becomes `String`/`List Char`,
Python's arbitrary-precision integers become `Nat`/`Int`, and the real-valued
age/size factors (Python computes them with IEEE doubles) are modelled with
exact unnormalized rationals (`Frac`); `int(...)` truncation is `pyTruncNat`.
All definitions are executable so concrete wire frames can be evaluated by
`decide`. -/

set_option maxRecDepth 100000
set_option maxHeartbeats 2000000

namespace P2pIM

/-! SHA-256, implemented from FIPS 180-4 over byte lists, because the codec's
checksum and proof of work both hash with `hashlib.sha256`. -/

/-- Truncated rotate-right of a 32-bit word. -/
def rotr32 (n x : Nat) : Nat := ((x >>> n) ||| (x <<< (32 - n))) % 2 ^ 32

/-- Addition modulo 2^32. -/
def add32 (a b : Nat) : Nat := (a + b) % 2 ^ 32

/-- Bitwise complement of a 32-bit word. -/
def not32 (x : Nat) : Nat := x ^^^ (2 ^ 32 - 1)

def bsig0 (x : Nat) : Nat := rotr32 2 x ^^^ rotr32 13 x ^^^ rotr32 22 x
def bsig1 (x : Nat) : Nat := rotr32 6 x ^^^ rotr32 11 x ^^^ rotr32 25 x
def ssig0 (x : Nat) : Nat := rotr32 7 x ^^^ rotr32 18 x ^^^ (x >>> 3)
def ssig1 (x : Nat) : Nat := rotr32 17 x ^^^ rotr32 19 x ^^^ (x >>> 10)
def shaCh (e f g : Nat) : Nat := (e &&& f) ^^^ (not32 e &&& g)
def shaMaj (a b c : Nat) : Nat := (a &&& b) ^^^ (a &&& c) ^^^ (b &&& c)

/-- SHA-256 round constants (fractional parts of the cube roots of the first
64 primes). -/
def shaK : List Nat := [
  1116352408, 1899447441, 3049323471, 3921009573, 961987163, 1508970993, 2453635748, 2870763221,
  3624381080, 310598401, 607225278, 1426881987, 1925078388, 2162078206, 2614888103, 3248222580,
  3835390401, 4022224774, 264347078, 604807628, 770255983, 1249150122, 1555081692, 1996064986,
  2554220882, 2821834349, 2952996808, 3210313671, 3336571891, 3584528711, 113926993, 338241895,
  666307205, 773529912, 1294757372, 1396182291, 1695183700, 1986661051, 2177026350, 2456956037,
  2730485921, 2820302411, 3259730800, 3345764771, 3516065817, 3600352804, 4094571909, 275423344,
  430227734, 506948616, 659060556, 883997877, 958139571, 1322822218, 1537002063, 1747873779,
  1955562222, 2024104815, 2227730452, 2361852424, 2428436474, 2756734187, 3204031479, 3329325298]

/-- Working state of the compression function: eight 32-bit words. -/
structure Sha8 where
  a : Nat
  b : Nat
  c : Nat
  d : Nat
  e : Nat
  f : Nat
  g : Nat
  h : Nat
deriving DecidableEq, Repr

/-- Initial hash value (fractional parts of the square roots of the first
8 primes). -/
def shaInit : Sha8 :=
  ⟨1779033703, 3144134277, 1013904242, 2773480762,
   1359893119, 2600822924, 528734635, 1541459225⟩

/-- Big-endian 32-bit words from a byte list (4 bytes per word). -/
def beWords : List Nat → List Nat
  | a :: b :: c :: d :: rest => (((a * 256 + b) * 256 + c) * 256 + d) :: beWords rest
  | _ => []

/-- Extend the 16 block words to the 64-word message schedule. -/
def schedule (ws : List Nat) : List Nat :=
  (List.range 48).foldl (fun w _ =>
    let n := w.length
    w ++ [add32 (add32 (ssig1 (w.getD (n - 2) 0)) (w.getD (n - 7) 0))
                (add32 (ssig0 (w.getD (n - 15) 0)) (w.getD (n - 16) 0))]) ws

/-- One compression round. -/
def shaRound (s : Sha8) (kw : Nat × Nat) : Sha8 :=
  let t1 := add32 (add32 s.h (bsig1 s.e)) (add32 (add32 (shaCh s.e s.f s.g) kw.1) kw.2)
  let t2 := add32 (bsig0 s.a) (shaMaj s.a s.b s.c)
  ⟨add32 t1 t2, s.a, s.b, s.c, add32 s.d t1, s.e, s.f, s.g⟩

/-- Compress one 64-byte block into the running state. -/
def compressBlock (st : Sha8) (block : List Nat) : Sha8 :=
  let w := schedule (beWords block)
  let r := (shaK.zip w).foldl shaRound st
  ⟨add32 st.a r.a, add32 st.b r.b, add32 st.c r.c, add32 st.d r.d,
   add32 st.e r.e, add32 st.f r.f, add32 st.g r.g, add32 st.h r.h⟩

/-- Big-endian bytes of a 64-bit length field. -/
def be64 (n : Nat) : List Nat := (List.range 8).map (fun i => (n >>> (56 - 8 * i)) &&& 255)

/-- Big-endian bytes of a 32-bit word. -/
def be4 (w : Nat) : List Nat := [(w >>> 24) &&& 255, (w >>> 16) &&& 255, (w >>> 8) &&& 255, w &&& 255]

/-- FIPS 180-4 padding: append 0x80, zeros to 56 mod 64, then the bit length. -/
def padMsg (m : List Nat) : List Nat :=
  m ++ 0x80 :: List.replicate ((119 - m.length % 64) % 64) 0 ++ be64 (8 * m.length)

/-- Split into 64-byte blocks; the fuel is an upper bound on the block count,
keeping the recursion structural so the kernel can evaluate it. -/
def chunksGo : Nat → List Nat → List (List Nat)
  | 0, _ => []
  | fuel + 1, l => if l = [] then [] else l.take 64 :: chunksGo fuel (l.drop 64)

/-- SHA-256 digest (32 bytes) of a byte list. -/
def sha256 (m : List Nat) : List Nat :=
  let p := padMsg m
  let st := (chunksGo p.length p).foldl compressBlock shaInit
  be4 st.a ++ be4 st.b ++ be4 st.c ++ be4 st.d ++ be4 st.e ++ be4 st.f ++ be4 st.g ++ be4 st.h

/-- Lowercase hex digit. -/
def hexChar (n : Nat) : Char := Char.ofNat (if n < 10 then 48 + n else 87 + n)

/-- Two lowercase hex chars of one byte. -/
def byteHex (b : Nat) : List Char := [hexChar (b >>> 4), hexChar (b &&& 15)]

/-- Lowercase hex of a byte list, as `bytes.hex()`/`hexdigest()` produce. -/
def hexOfBytes (bs : List Nat) : List Char := (bs.map byteHex).flatten

/-- Hexdigest (64 lowercase hex chars) of a byte list. -/
def hexdigest (m : List Nat) : List Char := hexOfBytes (sha256 m)

/-- Value of a hex character, as `int(s, 16)` reads it (other characters never
reach this function on the digests the repository parses). -/
def hexCharVal (c : Char) : Nat :=
  if 48 ≤ c.toNat ∧ c.toNat ≤ 57 then c.toNat - 48
  else if 97 ≤ c.toNat ∧ c.toNat ≤ 102 then c.toNat - 87
  else if 65 ≤ c.toNat ∧ c.toNat ≤ 70 then c.toNat - 55
  else 0

/-- Integer value of a hex string, as `int(s, 16)`. -/
def hexToNat (l : List Char) : Nat := l.foldl (fun a c => a * 16 + hexCharVal c) 0

/-- UTF-8 bytes of one character, as `str.encode('utf-8')` emits them. -/
def utf8Char (c : Char) : List Nat :=
  let n := c.toNat
  if n < 0x80 then [n]
  else if n < 0x800 then [0xc0 ||| (n >>> 6), 0x80 ||| (n &&& 0x3f)]
  else if n < 0x10000 then
    [0xe0 ||| (n >>> 12), 0x80 ||| ((n >>> 6) &&& 0x3f), 0x80 ||| (n &&& 0x3f)]
  else
    [0xf0 ||| (n >>> 18), 0x80 ||| ((n >>> 12) &&& 0x3f),
     0x80 ||| ((n >>> 6) &&& 0x3f), 0x80 ||| (n &&& 0x3f)]

/-- UTF-8 encoding of a string. -/
def strBytes (s : String) : List Nat := (s.data.map utf8Char).flatten

end P2pIM

namespace Message_v0

open P2pIM

/-! Class constants of `Message_v0` (messages.py lines 51-65). -/

def format_bytes : Nat := 16
def version_bytes : Nat := 1
def timestamp_bytes : Nat := 14
def nonce_bytes : Nat := 10
def checksum_bytes : Nat := 12
def pow_bytes : Nat := 8
/-- The PoW target, `2**(8*pow_bytes//2) - 1` in the source. -/
def pow_target : Nat := 2 ^ (8 * pow_bytes / 2) - 1
def overhead_bytes : Nat := format_bytes + timestamp_bytes + nonce_bytes + version_bytes + checksum_bytes
def min_message_bytes : Nat := 8 + overhead_bytes
def max_payload_bytes : Nat := 128
def max_message_bytes : Nat := max_payload_bytes + overhead_bytes
/-- Seconds of `min_message_age = timedelta(seconds = 10)`. -/
def min_message_age : Nat := 10

/-- Checksum of a payload: first `checksum_bytes` chars of the payload's
hexdigest (messages.py `get_checksum`). -/
def get_checksum (payload : String) : String :=
  String.mk ((hexdigest (strBytes payload)).take checksum_bytes)

/-- Initial proof of work (messages.py `get_initial_pow`): hash timestamp,
nonce and checksum in sequence, read the first `pow_bytes` hex chars as an
integer, return the absolute distance from `target`. -/
def get_initial_pow (timestamp nonce checksum : String) (target : Int) : Nat :=
  (target - (hexToNat ((hexdigest (strBytes timestamp ++ strBytes nonce ++ strBytes checksum)).take pow_bytes) : Int)).natAbs

end Message_v0

namespace Message_v0

/-! Datetime model: a UTC instant at second precision, the only form the
repository uses (`strftime('%Y%m%d%H%M%S')` / `strptime`). -/

/-- A UTC instant at second precision. -/
structure DT where
  year : Nat
  month : Nat
  day : Nat
  hour : Nat
  minute : Nat
  second : Nat
deriving DecidableEq, Repr

/-- Gregorian leap year, as `calendar.isleap`/`datetime` use it. -/
def isLeap (y : Nat) : Bool := (y % 4 == 0 && y % 100 != 0) || y % 400 == 0

def daysInMonth (y m : Nat) : Nat :=
  if m = 2 then (if isLeap y then 29 else 28)
  else if m = 4 ∨ m = 6 ∨ m = 9 ∨ m = 11 then 30 else 31

def daysBeforeMonth (y m : Nat) : Nat :=
  (List.range (m - 1)).foldl (fun a i => a + daysInMonth y (i + 1)) 0

def daysBeforeYear (y : Nat) : Nat :=
  (y - 1) * 365 + (y - 1) / 4 + (y - 1) / 400 - (y - 1) / 100

/-- Seconds since the proleptic-Gregorian epoch; only differences of these
values are ever used (they model `datetime` subtraction as a `timedelta`). -/
def dtSecs (d : DT) : Int :=
  ((((daysBeforeYear d.year + daysBeforeMonth d.year d.month + (d.day - 1)) * 24
      + d.hour) * 60 + d.minute) * 60 + d.second : Nat)

/-- The instants `datetime` can represent with `%Y%m%d%H%M%S`. -/
def validDT (d : DT) : Prop :=
  1 ≤ d.year ∧ d.year ≤ 9999 ∧ 1 ≤ d.month ∧ d.month ≤ 12 ∧ 1 ≤ d.day ∧
  d.day ≤ daysInMonth d.year d.month ∧ d.hour ≤ 23 ∧ d.minute ≤ 59 ∧ d.second ≤ 59

instance : DecidablePred validDT := fun d => by unfold validDT; infer_instance

/-- Zero-padded decimal rendering to a fixed width (faithful to `strftime`
for values that fit the width, which `validDT` guarantees). -/
def padNat : Nat → Nat → List Char
  | 0, _ => []
  | w + 1, n => padNat w (n / 10) ++ [Char.ofNat (48 + n % 10)]

/-- `strftime('%Y%m%d%H%M%S')`. -/
def strftime (d : DT) : String :=
  String.mk (padNat 4 d.year ++ padNat 2 d.month ++ padNat 2 d.day ++
    padNat 2 d.hour ++ padNat 2 d.minute ++ padNat 2 d.second)

/-- Numeric value of a digit list (leading zeros allowed). -/
def digitsVal (l : List Char) : Nat := l.foldl (fun a c => a * 10 + (c.toNat - 48)) 0

def allDigits (l : List Char) : Bool := l.all (fun c => c.isDigit)

/-- Modelled from CPython `datetime.strptime(s, '%Y%m%d%H%M%S')` applied to a
14-character candidate: `%Y` is exactly 4 digits, and since the five
remaining fields each consume at most 2 of the remaining 10 characters, a
successful match forces exactly 2 each, so success requires 14 ASCII digits
with every field in `datetime`'s range (the 60/61 leap seconds the `%S` regex
admits are rejected by the `datetime` constructor, which the repository's
`except` clauses treat identically to a match failure). -/
def strptime14 (l : List Char) : Option DT :=
  if l.length = 14 ∧ allDigits l = true then
    let y := digitsVal (l.take 4)
    let mo := digitsVal ((l.drop 4).take 2)
    let d := digitsVal ((l.drop 6).take 2)
    let h := digitsVal ((l.drop 8).take 2)
    let mi := digitsVal ((l.drop 10).take 2)
    let s := digitsVal ((l.drop 12).take 2)
    if 1 ≤ y ∧ 1 ≤ mo ∧ mo ≤ 12 ∧ 1 ≤ d ∧ d ≤ daysInMonth y mo ∧
       h ≤ 23 ∧ mi ≤ 59 ∧ s ≤ 59 then
      some ⟨y, mo, d, h, mi, s⟩
    else none
  else none

/-- Python string `>`: lexicographic on code points, a proper extension is
greater. -/
def listGt : List Char → List Char → Bool
  | [], _ => false
  | _ :: _, [] => true
  | a :: xs, b :: ys =>
    if b.toNat < a.toNat then true
    else if a.toNat < b.toNat then false
    else listGt xs ys

/-- Whitespace stripped by `int(str)` (ASCII portion). -/
def pyWs (c : Char) : Bool :=
  c = ' ' || c = '\t' || c = '\n' || c.toNat = 13 || c.toNat = 11 || c.toNat = 12

def stripWs (l : List Char) : List Char :=
  ((l.dropWhile fun c => pyWs c).reverse.dropWhile fun c => pyWs c).reverse

def digitsTail : List Char → Bool
  | [] => true
  | c :: r =>
    if c = '_' then
      match r with
      | [] => false
      | d :: r2 => d.isDigit && digitsTail r2
    else c.isDigit && digitsTail r

def digitsOk : List Char → Bool
  | [] => false
  | c :: r => c.isDigit && digitsTail r

/-- Modelled from CPython `int(str)` acceptance: optional surrounding
whitespace, one optional sign, then a nonempty ASCII digit run with single
interior underscores.  (CPython also accepts non-ASCII decimal digits and
whitespace; the repository's frames are ASCII, so the ASCII model is used
throughout.) -/
def pyIntOk (l : List Char) : Bool :=
  match stripWs l with
  | [] => false
  | c :: r => if c = '+' ∨ c = '-' then digitsOk r else digitsOk (c :: r)

/-- Python slice `l[a:b]` for `0 ≤ a ≤ b`. -/
def pySlice (l : List Char) (a b : Nat) : List Char := (l.drop a).take (b - a)

/-! Field offsets computed in `parse` (messages.py lines 165-197). -/

def d_start : Nat := 5 + version_bytes
def d_end : Nat := d_start + timestamp_bytes
def n_start : Nat := 3 + d_end
def n_end : Nat := n_start + nonce_bytes
def c_start : Nat := 3 + n_end
def c_end : Nat := c_start + checksum_bytes
def p_start : Nat := 3 + c_end

def tsOf (cs : List Char) : List Char := pySlice cs d_start d_end
def nonceOf (cs : List Char) : List Char := pySlice cs n_start n_end
def checksumOf (cs : List Char) : List Char := pySlice cs c_start c_end
def payloadOf (cs : List Char) : List Char := pySlice cs p_start (cs.length - 2)

def initialPowOf (cs : List Char) : Nat :=
  get_initial_pow (String.mk (tsOf cs)) (String.mk (nonceOf cs))
    (String.mk (checksumOf cs)) (pow_target : Int)

/-- Hex rendering of `n.to_bytes(length = 4).hex()` (exact for `n < 2^32`;
Python raises `OverflowError` beyond that, which the server never reaches). -/
def hex8 (n : Nat) : String := String.mk (P2pIM.hexOfBytes (P2pIM.be4 n))

/-- An exact (unnormalized) rational with positive denominator.  The age and
size factors are real-valued in the source (Python evaluates them as IEEE
doubles); this carries their exact values, which agree with the doubles away
from rounding boundaries. -/
structure Frac where
  num : Int
  den : Nat
deriving DecidableEq, Repr

def Frac.ofNat (n : Nat) : Frac := ⟨n, 1⟩

def Frac.mul (a b : Frac) : Frac := ⟨a.num * b.num, a.den * b.den⟩

/-- Division by a fraction with positive numerator (the only case reached). -/
def Frac.div (a b : Frac) : Frac := ⟨a.num * b.den, a.den * b.num.toNat⟩

/-- Python `int()` truncation toward zero. -/
def Frac.trunc (a : Frac) : Int := a.num.tdiv a.den

def pyTruncNat (a : Frac) : Nat := a.trunc.toNat

/-- Age factor `max(utc_now - timestamp_obj, min_message_age) /
min_message_age`. -/
def ageF (utc_now ts : DT) : Frac :=
  ⟨max (dtSecs utc_now - dtSecs ts) (min_message_age : Int), min_message_age⟩

/-- Size factor `max(len, min_message_bytes) / min_message_bytes`. -/
def sizeF (len : Nat) : Frac := ⟨(max len min_message_bytes : Nat), min_message_bytes⟩

/-- The clamp `min(2**(4*pow_bytes) - 1, int(initial_pow * age * size))`
shared by `update_pow` (messages.py lines 143-147) and `parse` (203-206). -/
def currentPow (initial : Nat) (age size : Frac) : Nat :=
  min (2 ^ (4 * pow_bytes) - 1) (pyTruncNat (((Frac.ofNat initial).mul age).mul size))

/-- The mutable fields of a `Message_v0` object (`__init__` sets everything
but `version` to `None`). -/
structure Msg where
  version : String
  timestamp_str : Option String
  timestamp_obj : Option DT
  nonce : Option String
  checksum : Option String
  payload : Option String
  initial_pow : Option Nat
  current_pow : Option Nat
  utc_now : Option DT
deriving DecidableEq, Repr

/-- A freshly constructed `Message_v0()`. -/
def Msg.mk0 : Msg := ⟨"0", none, none, none, none, none, none, none, none⟩

/-- Verifier (messages.py `parse`, lines 155-218).  `self` is the object being
initialized; the result pairs the updated object with the returned string
(`""` on success).  `utc_now` is always passed explicitly (the server passes
its fixed test clock or Python takes the wall clock). -/
def parse (self : Msg) (s : String) (required_pow : Nat) (utc_now : DT) : Msg × String :=
  let cs := s.data
  if cs.length < overhead_bytes then
    (self, "Message too short: " ++ Nat.repr cs.length ++ "<" ++ Nat.repr overhead_bytes ++ "\n")
  else if ¬ (cs.take 6 = "[\"0\",\"".data) then (self, "Wrong format/version\n")
  else if ¬ (cs.drop (cs.length - 2) = "\"]".data) then (self, "Wrong format/payload\n")
  else if ¬ (pyIntOk (tsOf cs) = true) then (self, "Wrong format/datetime\n")
  else if listGt (tsOf cs) (strftime utc_now).data = true then (self, "Datetime in future\n")
  else if initialPowOf cs > required_pow then
    (self, "Required PoW: 0x" ++ hex8 required_pow ++ "\n")
  else
    match strptime14 (tsOf cs) with
    | none => (self, "Wrong format/datetime\n")
    | some tsObj =>
      if String.mk (checksumOf cs) ≠ get_checksum (String.mk (payloadOf cs)) then
        (self, "Wrong checksum\n")
      else
        let current := currentPow (initialPowOf cs) (ageF utc_now tsObj) (sizeF cs.length)
        if current > required_pow then
          (self, "Required PoW: 0x" ++ hex8 required_pow ++ "\n")
        else
          ({ self with
              timestamp_str := some (String.mk (tsOf cs)),
              timestamp_obj := some tsObj,
              nonce := some (String.mk (nonceOf cs)),
              checksum := some (String.mk (checksumOf cs)),
              payload := some (String.mk (payloadOf cs)),
              initial_pow := some (initialPowOf cs),
              current_pow := some current }, "")

end Message_v0

namespace Message_v0

/-- The 62-character alphabet `itertools.product` iterates over
(messages.py line 123), in source order: lowercase, uppercase, digits. -/
def nonceAlphabet : List Char :=
  "abcdefghijklmnopqrstuvwxyzABCDEFGHIJKLMNOPQRSTUVWXYZ0123456789".data

/-- The k-th 10-character candidate in `product(alphabet, repeat = 10)`
order: the last position varies fastest, so candidate k is k written in
base 62 over the alphabet, most significant position first. -/
def nonceAt (k : Nat) : String :=
  String.mk ((List.range nonce_bytes).map (fun i =>
    nonceAlphabet.getD (k / 62 ^ (nonce_bytes - 1 - i) % 62) 'a'))

/-- Search loop of `update_nonce` (messages.py lines 122-133): try candidates
`i, i + 1, ...`; the first whose initial PoW is strictly below `required_pow`
is returned together with that PoW and the number of candidates tried. -/
def findNonce (ts cs : String) (required_pow : Nat) : Nat → Nat → Option (String × Nat × Nat)
  | _, 0 => none
  | i, fuel + 1 =>
    let candidate := nonceAt i
    let initial := get_initial_pow ts candidate cs (pow_target : Int)
    if initial < required_pow then some (candidate, initial, i + 1)
    else findNonce ts cs required_pow (i + 1) fuel

/-- Miner (messages.py `update_nonce`, lines 117-140) on a stamped and paid
message, given its `timestamp_str` and `checksum`.  A negative `required_pow`
is the `-1` default and becomes `2**(4*pow_bytes) - 1`; `none` models the
`RuntimeError` raised when the whole 62^10 space is exhausted.  The final
`update_pow` refresh of `current_pow` is the shared `currentPow`, applied by
callers. -/
def update_nonce (ts cs : String) (required_pow : Int) : Option (String × Nat × Nat) :=
  let r := if required_pow < 0 then 2 ^ (4 * pow_bytes) - 1 else required_pow.toNat
  findNonce ts cs r 0 (62 ^ nonce_bytes)

end Message_v0

namespace Server1

open P2pIM Message_v0

/-- A message held or offered to the store: the fields a successful `parse`
populates, with concrete values. -/
structure PMsg where
  timestamp_str : String
  timestamp_obj : DT
  nonce : String
  checksum : String
  payload : String
  initial_pow : Nat
  current_pow : Nat
deriving DecidableEq, Repr

/-- Wire form `str(message)` (messages.py `__str__`); `version` is `'0'` for
every message the server handles. -/
def wireList (m : PMsg) : List Char :=
  "[\"0\",\"".data ++ m.timestamp_str.data ++ "\",\"".data ++ m.nonce.data ++
  "\",\"".data ++ m.checksum.data ++ "\",\"".data ++ m.payload.data ++ "\"]".data

def wireStr (m : PMsg) : String := String.mk (wireList m)

/-- server1.py `get_storage_used` (lines 40-44): total wire length of the
store, iterated in insertion order. -/
def get_storage_used (store : List PMsg) : Nat :=
  store.foldl (fun used m => used + (wireList m).length) 0

/-- `update_pow(now)` on a stored message (messages.py lines 143-147). -/
def updatePow (now : DT) (m : PMsg) : PMsg :=
  { m with current_pow :=
      currentPow m.initial_pow (ageF now m.timestamp_obj) (sizeF (wireList m).length) }

/-- The fold inside `get_worst_pow` (server1.py lines 48-60):
`worst_initial, worst_current = 0, 0`, updated on strict improvement, ties
keeping the earlier entry. -/
def worstOf (store : List PMsg) : Nat × Nat :=
  store.foldl (fun w m => if w.2 < m.current_pow then (m.initial_pow, m.current_pow) else w) (0, 0)

/-- `get_worst_pow` refreshes every stored message with `update_pow` and then
folds; the mutated (refreshed) store is what the caller keeps seeing. -/
def get_worst_pow (now : DT) (store : List PMsg) : Nat × Nat :=
  worstOf (store.map (updatePow now))

/-- Python dict assignment `messages[key] = message`: overwrite in place if
the key exists (keeping its position), else append. -/
def insertPM (m : PMsg) : List PMsg → List PMsg
  | [] => [m]
  | x :: xs => if x.initial_pow = m.initial_pow then m :: xs else x :: insertPM m xs

/-- `messages.pop(k, None)`. -/
def popKey (k : Nat) : List PMsg → List PMsg
  | [] => []
  | x :: xs => if x.initial_pow = k then xs else x :: popKey k xs

/-- The `while` loop of `handle_message` (server1.py lines 126-137): while
the store is non-empty and the newcomer does not fit, compute the worst
resident (which refreshes every resident's `current_pow`); reject if the
newcomer is strictly weaker, else evict the worst and retry.
`some (store, some wc)` is the rejection exit carrying `worst_current`,
`some (store, none)` falls through to insertion, and `none` models divergence
of the Python loop (possible only if the pop removes nothing); fuel
`store.length + 1` suffices for every terminating run. -/
def evictLoop (now : DT) (max_storage msg_len m_current : Nat) :
    Nat → List PMsg → Option (List PMsg × Option Nat)
  | 0, _ => none
  | fuel + 1, store =>
    if store ≠ [] ∧ msg_len + get_storage_used store > max_storage then
      let store' := store.map (updatePow now)
      let w := worstOf store'
      if m_current > w.2 then some (store', some w.2)
      else evictLoop now max_storage msg_len m_current fuel (popKey w.1 store')
    else some (store, none)

/-- Admission path of `handle_message` for a validated non-control message
(server1.py lines 124-143): make room, insert keyed by `initial_pow`, raise
the `required_pow` watermark, reply `ok`. -/
def admission (now : DT) (max_storage : Nat) (m : PMsg) (store : List PMsg)
    (required_pow : Nat) : Option (List PMsg × Nat × String) :=
  match evictLoop now max_storage (wireList m).length m.current_pow (store.length + 1) store with
  | none => none
  | some (store', some wc) =>
    some (store', required_pow, "Required pow: 0x" ++ hex8 wc ++ "\n")
  | some (store', none) =>
    some (insertPM m store', max required_pow m.current_pow, "ok\n")

/-- The `PMsg` carried by a message whose fields `parse` populated. -/
def pmOf (m : Msg) : Option PMsg :=
  match m.timestamp_str, m.timestamp_obj, m.nonce, m.checksum, m.payload,
        m.initial_pow, m.current_pow with
  | some ts, some tso, some n, some c, some p, some ip, some cp =>
    some ⟨ts, tso, n, c, p, ip, cp⟩
  | _, _, _, _, _, _, _ => none

/-- One complete `handle_message` interaction (server1.py lines 64-143) as a
state transformer on `(store, required_pow)`.  Failed verification and the
four control payloads reply without touching the state (`__exit__` in test
mode terminates the process, leaving the state unchanged at that point);
other messages go through admission.  `none` is divergence of the eviction
loop; the `pmOf = none` branch is unreachable because a successful `parse`
populates every field. -/
def handleStep (now : DT) (max_storage : Nat) (s : String)
    (st : List PMsg × Nat) : Option (List PMsg × Nat) :=
  let pr := parse Msg.mk0 s st.2 now
  if pr.2 ≠ "" then some st
  else if pr.1.payload = some "__info__" ∨ pr.1.payload = some "__messages__" ∨
          pr.1.payload = some "__exit__" ∨ pr.1.payload = some "__memory__" then some st
  else
    match pmOf pr.1 with
    | some p => (admission now max_storage p st.1 st.2).map (fun r => (r.1, r.2.1))
    | none => some st

/-- Server states reachable from startup: store empty, watermark
`required_pow = 2**(4*pow_bytes) - 1` (server1.py lines 34-35), evolving by
whole `handle_message` interactions at the fixed test clock `now`. -/
inductive Reach (now : DT) (max_storage : Nat) : List PMsg × Nat → Prop
  | init : Reach now max_storage ([], 2 ^ (4 * pow_bytes) - 1)
  | step (st st' : List PMsg × Nat) (s : String) : Reach now max_storage st →
      handleStep now max_storage s st = some st' → Reach now max_storage st'

end Server1

namespace Generate1

open P2pIM Message_v0

/-- The proof-of-work scaling generate1.py applies before mining (lines
80-81): `age = max(duration, min_message_age) / min_message_age`, then
`pow = int(pow / age)`.  `pow` and `duration` are the parsed `--pow` and
`--duration` values; the float division is carried exactly. -/
def scaled_pow (pow duration : Nat) : Nat :=
  pyTruncNat (Frac.div (Frac.ofNat pow)
    ⟨(max duration min_message_age : Nat), min_message_age⟩)

end Generate1

section ConcreteMessages

open P2pIM Message_v0 Server1

/-- The fixed test clock 2000-01-02 03:04:05 used by concrete scenarios. -/
def dt0 : Message_v0.DT := ⟨2000, 1, 2, 3, 4, 5⟩

/-- Validated message with empty payload, stamped at `dt0`. -/
def msgE : Server1.PMsg :=
  ⟨"20000102030405", dt0, "aaaaaaaaaa", "e3b0c44298fc", "", 1270388943, 1270388943⟩

/-- Validated message with payload `x`. -/
def msgX : Server1.PMsg :=
  ⟨"20000102030405", dt0, "aaaaaaaaaa", "2d711642b726", "x", 777796076, 777796076⟩

/-- Validated message with payload `y`. -/
def msgY : Server1.PMsg :=
  ⟨"20000102030405", dt0, "aaaaaaaaaa", "a1fce4363854", "y", 4249583517, 4249583517⟩

end ConcreteMessages

namespace Message_v0

/-- Miner success bound (messages.py lines 118-119): the `-1` default becomes
`2**(4*pow_bytes) - 1`. -/
def minerBound (required_pow : Int) : Nat :=
  if required_pow < 0 then 2 ^ (4 * pow_bytes) - 1 else required_pow.toNat

/-- Initial PoW of the k-th nonce candidate for a stamped and paid message
with timestamp `ts` and checksum `cs`. -/
def minerPow (ts cs : String) (k : Nat) : Nat :=
  get_initial_pow ts (nonceAt k) cs (pow_target : Int)

/-- Chronological order key of an instant: the numeric value of its 14-digit
rendering (lexicographic on the six fields). -/
def dtKey (d : DT) : Nat :=
  ((((d.year * 100 + d.month) * 100 + d.day) * 100 + d.hour) * 100 + d.minute) * 100 + d.second

end Message_v0

namespace SpecVerifier

open P2pIM Message_v0

/-- H as the specification words it (§4.2): the first 8 hex characters of
SHA-256(timestamp ∥ nonce ∥ checksum) read as an integer. -/
def specH (timestamp nonce checksum : String) : Nat :=
  hexToNat ((hexdigest (strBytes timestamp ++ strBytes nonce ++ strBytes checksum)).take 8)

/-- The verifier contract as §4.3 of the specification words it: eight checks
in order, the first failure returning its diagnostic, `""` on success.
Check 3 is the specification's "timestamp substring is 14 ASCII digits". -/
def specVerdict (s : String) (required_pow : Nat) (now : DT) : String :=
  let cs := s.data
  if cs.length < overhead_bytes then
    "Message too short: " ++ Nat.repr cs.length ++ "<" ++ Nat.repr overhead_bytes ++ "\n"
  else if ¬ (cs.take 6 = "[\"0\",\"".data) then "Wrong format/version\n"
  else if ¬ (cs.drop (cs.length - 2) = "\"]".data) then "Wrong format/payload\n"
  else if ¬ (allDigits (tsOf cs) = true ∧ (tsOf cs).length = 14) then "Wrong format/datetime\n"
  else if listGt (tsOf cs) (strftime now).data = true then "Datetime in future\n"
  else if initialPowOf cs > required_pow then
    "Required PoW: 0x" ++ hex8 required_pow ++ "\n"
  else
    match strptime14 (tsOf cs) with
    | none => "Wrong format/datetime\n"
    | some tsObj =>
      if String.mk (checksumOf cs) ≠ get_checksum (String.mk (payloadOf cs)) then
        "Wrong checksum\n"
      else if currentPow (initialPowOf cs) (ageF now tsObj) (sizeF cs.length) > required_pow then
        "Required PoW: 0x" ++ hex8 required_pow ++ "\n"
      else ""

/-- The same contract with check 3 amended to what the code actually tests:
the timestamp substring is accepted by Python's `int()` (sign, surrounding
whitespace and interior underscores allowed); strict digit validation only
happens at the calendar parse of check 6. -/
def specVerdictInt (s : String) (required_pow : Nat) (now : DT) : String :=
  let cs := s.data
  if cs.length < overhead_bytes then
    "Message too short: " ++ Nat.repr cs.length ++ "<" ++ Nat.repr overhead_bytes ++ "\n"
  else if ¬ (cs.take 6 = "[\"0\",\"".data) then "Wrong format/version\n"
  else if ¬ (cs.drop (cs.length - 2) = "\"]".data) then "Wrong format/payload\n"
  else if ¬ (pyIntOk (tsOf cs) = true) then "Wrong format/datetime\n"
  else if listGt (tsOf cs) (strftime now).data = true then "Datetime in future\n"
  else if initialPowOf cs > required_pow then
    "Required PoW: 0x" ++ hex8 required_pow ++ "\n"
  else
    match strptime14 (tsOf cs) with
    | none => "Wrong format/datetime\n"
    | some tsObj =>
      if String.mk (checksumOf cs) ≠ get_checksum (String.mk (payloadOf cs)) then
        "Wrong checksum\n"
      else if currentPow (initialPowOf cs) (ageF now tsObj) (sizeF cs.length) > required_pow then
        "Required PoW: 0x" ++ hex8 required_pow ++ "\n"
      else ""

end SpecVerifier

namespace Server1

open P2pIM Message_v0

/-- A fully initialized valid message: the invariants §3 of the specification
imposes on any valid message (`current_pow` is recomputed by the verifier, so
it is unconstrained here). -/
def ValidP (m : PMsg) : Prop :=
  validDT m.timestamp_obj ∧
  m.timestamp_str = strftime m.timestamp_obj ∧
  m.nonce.data.length = nonce_bytes ∧
  m.checksum = get_checksum m.payload ∧
  m.initial_pow = get_initial_pow m.timestamp_str m.nonce m.checksum (pow_target : Int)

instance : DecidablePred ValidP := fun m => by unfold ValidP; infer_instance

end Server1

section ConcreteMessages

open P2pIM Message_v0 Server1

/-- Validated message with a 128-byte payload; its wire form is 181 bytes and
its current PoW clamps to `2^32 - 1`. -/
def msgBig : Server1.PMsg :=
  ⟨"20000102030405", dt0, "aaaaaaaaaa", "24da1b81d0b1",
   "xxxxxxxxxxxxxxxxxxxxxxxxxxxxxxxxxxxxxxxxxxxxxxxxxxxxxxxxxxxxxxxxxxxxxxxxxxxxxxxxxxxxxxxxxxxxxxxxxxxxxxxxxxxxxxxxxxxxxxxxxxxxxxxx",
   1725879917, 4294967295⟩

/-- The C3 scenario frame: its timestamp field `+1234567890123` is accepted
by `int()` but is not 14 digits. -/
def c3frame : String := "[\"0\",\"+1234567890123\",\"aaaaaaaaaa\",\"e3b0c44298fc\",\"x\"]"

end ConcreteMessages

/-! Concrete evaluations validating the embedding and the concrete messages
against values computed independently from the sources. -/

example : Message_v0.get_checksum "" = "e3b0c44298fc" := by decide
example : Message_v0.get_checksum "x" = "2d711642b726" := by decide
example : Message_v0.get_initial_pow "20000102030405" "aaaaaaaaaa" "e3b0c44298fc" Message_v0.pow_target = 1270388943 := by decide

example : Message_v0.pyTruncNat ⟨3, 2⟩ = 1 := by decide
example : Message_v0.strftime ⟨2000, 1, 2, 3, 4, 5⟩ = "20000102030405" := by decide
example : Message_v0.strptime14 "20000102030405".data = some ⟨2000, 1, 2, 3, 4, 5⟩ := by decide
example :
    Message_v0.parse Message_v0.Msg.mk0
      "[\"0\",\"20000102030405\",\"aaaaaaaaaa\",\"e3b0c44298fc\",\"\"]"
      4294967295 ⟨2000, 1, 2, 3, 4, 5⟩ =
    (⟨"0", some "20000102030405", some ⟨2000, 1, 2, 3, 4, 5⟩, some "aaaaaaaaaa",
      some "e3b0c44298fc", some "", some 1270388943, some 1270388943, none⟩, "") := by
  decide
example :
    (Message_v0.parse Message_v0.Msg.mk0 "hi" 0 ⟨2000, 1, 2, 3, 4, 5⟩).2 =
      "Message too short: 2<53\n" := by decide

example :
    Message_v0.parse Message_v0.Msg.mk0 (Server1.wireStr msgX) 4294967295 dt0 =
      (⟨"0", some msgX.timestamp_str, some msgX.timestamp_obj, some msgX.nonce,
        some msgX.checksum, some msgX.payload, some msgX.initial_pow,
        some msgX.current_pow, none⟩, "") := by decide

example :
    Message_v0.parse Message_v0.Msg.mk0 (Server1.wireStr msgY) 4294967295 dt0 =
      (⟨"0", some msgY.timestamp_str, some msgY.timestamp_obj, some msgY.nonce,
        some msgY.checksum, some msgY.payload, some msgY.initial_pow,
        some msgY.current_pow, none⟩, "") := by decide

example :
    Message_v0.parse Message_v0.Msg.mk0 (Server1.wireStr msgBig) 4294967295 dt0 =
      (⟨"0", some msgBig.timestamp_str, some msgBig.timestamp_obj, some msgBig.nonce,
        some msgBig.checksum, some msgBig.payload, some msgBig.initial_pow,
        some msgBig.current_pow, none⟩, "") := by decide

/-! Claim theorems. -/

/-- C1 (counterexample): at a concrete timestamp, nonce and checksum the
codec's initial PoW differs from `|T − H|` for the claimed target
`T = 2^(4·pow_bytes − 1) − 1 = 0x7FFFFFFF`. -/
theorem c1_counterexample :
    Message_v0.get_initial_pow "20000102030405" "aaaaaaaaaa" "e3b0c44298fc"
        (Message_v0.pow_target : Int) ≠
      ((2 ^ (4 * Message_v0.pow_bytes - 1) - 1 : Int) -
        (SpecVerifier.specH "20000102030405" "aaaaaaaaaa" "e3b0c44298fc" : Int)).natAbs := by
  decide

/-- C1 (amended): for every timestamp string, nonce and checksum the initial
PoW computed by the codec is `|T − H|` where `H` is the first 8 hex chars of
SHA-256(timestamp ∥ nonce ∥ checksum) read as an integer and the target is
`T = pow_target = 2^(4·pow_bytes) − 1 = 0xFFFFFFFF`, the all-ones value, not
the midpoint `0x7FFFFFFF`. -/
theorem c1_initial_pow_formula (timestamp nonce checksum : String) :
    Message_v0.get_initial_pow timestamp nonce checksum (Message_v0.pow_target : Int) =
      ((2 ^ (4 * Message_v0.pow_bytes) - 1 : Int) -
        (SpecVerifier.specH timestamp nonce checksum : Int)).natAbs ∧
    Message_v0.pow_target = 0xffffffff :=
  ⟨rfl, rfl⟩

/-- Truncating division of nonnegative integers is `Nat` division. -/
theorem tdiv_toNat (a b : Nat) : ((a : Int).tdiv (b : Int)).toNat = a / b := rfl

/-- C8 (counterexample): at `--pow 100` and `--duration 10` the generator
passes 100 to the miner, not `floor(100 / max(10, 10).seconds / 10) = 1`. -/
theorem c8_counterexample :
    Generate1.scaled_pow 100 10 = 100 ∧
      100 / max 10 Message_v0.min_message_age / Message_v0.min_message_age = 1 ∧
      Generate1.scaled_pow 100 10 ≠
        100 / max 10 Message_v0.min_message_age / Message_v0.min_message_age := by
  decide

/-- C8 (amended): the effective PoW handed to the miner equals
`floor(W · min_message_age.seconds / max(D, min_message_age).seconds)` —
`W` divided by the age ratio `max(D, 10)/10`, not by `max(D, 10)` and then
by 10 again. -/
theorem c8_scaled_pow (W D : Nat) :
    Generate1.scaled_pow W D =
      W * Message_v0.min_message_age / max D Message_v0.min_message_age := by
  unfold Generate1.scaled_pow Message_v0.pyTruncNat Message_v0.Frac.div
    Message_v0.Frac.ofNat Message_v0.Frac.trunc
  simp only [Int.toNat_natCast, one_mul]
  rw [show ((W : Int) * ((Message_v0.min_message_age : Nat) : Int) : Int) =
    ((W * Message_v0.min_message_age : Nat) : Int) by push_cast; ring]
  exact tdiv_toNat _ _

/-- C2 (code bug witness): a single validated 181-byte message admitted into
the empty store with the default `max_storage = 128` is stored
unconditionally — the eviction loop requires a non-empty store — leaving
181 > 128 bytes stored, against the server's own `--mem` documentation
(`Store at most M bytes of messages.`). -/
theorem c2_storage_bound_violated :
    Server1.admission dt0 128 msgBig [] 4294967295 =
        some ([msgBig], 4294967295, "ok\n") ∧
      Server1.get_storage_used [msgBig] = 181 ∧ 128 < 181 := by
  decide

/-- C9 (counterexample): from a store holding `msgY` (capacity 128),
admitting `msgX` and then the identical `msgX` again ends with `[msgX]`,
not the `[msgY, msgX]` the first admission left: the size check counts the
duplicate's bytes a second time and evicts `msgY`. -/
theorem c9_counterexample :
    Server1.admission dt0 128 msgX [msgY] 4294967295 =
        some ([msgY, msgX], 4294967295, "ok\n") ∧
      Server1.admission dt0 128 msgX [msgY, msgX] 4294967295 =
        some ([msgX], 4294967295, "ok\n") ∧
      ([msgX] : List Server1.PMsg) ≠ [msgY, msgX] := by
  decide

/-- C3 (counterexample): on a frame whose timestamp field is
`+1234567890123` — accepted by `int()` but not 14 digits — with
`required_pow = 0`, the verifier reports insufficient PoW while the
specified check order stops at step 3 with the datetime diagnostic. -/
theorem c3_counterexample :
    (Message_v0.parse Message_v0.Msg.mk0 c3frame 0 dt0).2 = "Required PoW: 0x00000000\n" ∧
      SpecVerifier.specVerdict c3frame 0 dt0 = "Wrong format/datetime\n" ∧
      (Message_v0.parse Message_v0.Msg.mk0 c3frame 0 dt0).2 ≠
        SpecVerifier.specVerdict c3frame 0 dt0 := by
  decide

/-- C3 (amended): for every input, `required_pow` and clock, the verifier
performs the eight checks in the specified order with the specified
diagnostics, except that check 3 accepts exactly what `int()` accepts
(sign, surrounding whitespace, interior underscores) rather than only
14-digit strings. -/
theorem c3_parse_order (s : String) (required_pow : Nat) (now : Message_v0.DT) :
    (Message_v0.parse Message_v0.Msg.mk0 s required_pow now).2 =
      SpecVerifier.specVerdictInt s required_pow now := by
  simp only [Message_v0.parse, SpecVerifier.specVerdictInt]
  rcases h : Message_v0.strptime14 (Message_v0.tsOf s.data) with _ | tsObj <;>
    simp only [h] <;> split_ifs <;> rfl

/-- Refreshing a stored message's PoW does not change its key. -/
theorem updatePow_initial (now : Message_v0.DT) (p : Server1.PMsg) :
    (Server1.updatePow now p).initial_pow = p.initial_pow := rfl

/-- Refreshing a stored message's PoW does not change its wire form. -/
theorem updatePow_wire (now : Message_v0.DT) (p : Server1.PMsg) :
    Server1.wireList (Server1.updatePow now p) = Server1.wireList p := rfl

/-- C6: with a non-empty store, a validated newcomer that does not fit and is
strictly weaker than the weakest (recomputed) resident is rejected with
`Required pow: 0x` followed by that worst current PoW in 8 hex chars, and the
store keeps exactly its residents — same keys, same wire forms, nothing
evicted, the newcomer not inserted (only the residents' cached `current_pow`
is refreshed by the recomputation). -/
theorem c6_reject_no_evict (now : Message_v0.DT) (max_storage required_pow : Nat)
    (m : Server1.PMsg) (store : List Server1.PMsg)
    (hne : store ≠ [])
    (hfit : (Server1.wireList m).length + Server1.get_storage_used store > max_storage)
    (hweak : m.current_pow > (Server1.get_worst_pow now store).2) :
    Server1.admission now max_storage m store required_pow =
        some (store.map (Server1.updatePow now), required_pow,
          "Required pow: 0x" ++ Message_v0.hex8 (Server1.get_worst_pow now store).2 ++ "\n") ∧
      (store.map (Server1.updatePow now)).map Server1.PMsg.initial_pow =
        store.map Server1.PMsg.initial_pow ∧
      (store.map (Server1.updatePow now)).map Server1.wireList =
        store.map Server1.wireList := by
  unfold Server1.get_worst_pow at hweak
  refine ⟨?_, ?_, ?_⟩
  · have h1 : store ≠ [] ∧
        (Server1.wireList m).length + Server1.get_storage_used store > max_storage :=
      ⟨hne, hfit⟩
    unfold Server1.admission
    simp only [Server1.evictLoop, if_pos h1, if_pos hweak]
    unfold Server1.get_worst_pow
    rfl
  · rw [List.map_map]; rfl
  · rw [List.map_map]; rfl

/-- C6 witness at a concrete scenario: store `[msgX]`, capacity 100, newcomer
`msgY` (weaker than `msgX`). -/
theorem c6_reject_no_evict_witness :
    Server1.admission dt0 100 msgY [msgX] 4294967295 =
        some ([msgX].map (Server1.updatePow dt0), 4294967295,
          "Required pow: 0x" ++ Message_v0.hex8 (Server1.get_worst_pow dt0 [msgX]).2 ++ "\n") ∧
      ([msgX].map (Server1.updatePow dt0)).map Server1.PMsg.initial_pow =
        [msgX].map Server1.PMsg.initial_pow ∧
      ([msgX].map (Server1.updatePow dt0)).map Server1.wireList =
        [msgX].map Server1.wireList :=
  c6_reject_no_evict dt0 100 4294967295 msgY [msgX] (by decide) (by decide) (by decide)

/-- A string whose left part is nonempty is nonempty. -/
theorem append_left_ne_empty (a b : String) (h : a ≠ "") : a ++ b ≠ "" := by
  intro he
  have h2 : a.data ++ b.data = [] := by
    have := congrArg String.data he
    rwa [String.data_append] at this
  exact h (String.ext (List.append_eq_nil.mp h2).1)

/-- Python dict assignment with a fixed key and value is idempotent. -/
theorem insertPM_idem (m : Server1.PMsg) (l : List Server1.PMsg) :
    Server1.insertPM m (Server1.insertPM m l) = Server1.insertPM m l := by
  induction l with
  | nil => simp [Server1.insertPM]
  | cons x xs ih =>
    by_cases h : x.initial_pow = m.initial_pow
    · simp [Server1.insertPM, h]
    · simp [Server1.insertPM, h, ih]

/-- A rejection reply is never the success reply. -/
theorem required_reply_ne_ok (a b : String) : ("Required pow: 0x" ++ a) ++ b ≠ "ok\n" := by
  intro h
  have h2 := congrArg String.data h
  rw [String.data_append, String.data_append] at h2
  simp at h2

/-- C9 (amended): admitting the same validated message twice leaves the store
unchanged after the second admission, provided the duplicate still fits
(`len(wire m) + used_bytes ≤ max_storage` at the second admission); without
that proviso the size check counts the duplicate's bytes a second time and
can evict other residents first. -/
theorem c9_idempotent_when_fits (now : Message_v0.DT) (max_storage r r₁ : Nat)
    (m : Server1.PMsg) (store store₁ : List Server1.PMsg)
    (h1 : Server1.admission now max_storage m store r = some (store₁, r₁, "ok\n"))
    (hfit : (Server1.wireList m).length + Server1.get_storage_used store₁ ≤ max_storage) :
    Server1.admission now max_storage m store₁ r₁ =
      some (store₁, max r₁ m.current_pow, "ok\n") := by
  unfold Server1.admission at h1
  rcases hev : Server1.evictLoop now max_storage (Server1.wireList m).length m.current_pow
      (store.length + 1) store with _ | ⟨store', wc⟩
  · rw [hev] at h1; exact absurd h1 (by simp)
  · rw [hev] at h1
    rcases wc with _ | wc
    · simp only [Option.some.injEq, Prod.mk.injEq] at h1
      obtain ⟨hs, -, -⟩ := h1
      have hcond : ¬ (store₁ ≠ [] ∧
          (Server1.wireList m).length + Server1.get_storage_used store₁ > max_storage) := by
        rintro ⟨-, hgt⟩; omega
      unfold Server1.admission
      simp only [Server1.evictLoop, if_neg hcond]
      rw [← hs, insertPM_idem]
    · exfalso
      simp only [Option.some.injEq, Prod.mk.injEq] at h1
      exact required_reply_ne_ok _ _ h1.2.2

/-- C9 amended-claim witness: re-admitting `msgX` when it still fits
(capacity 200) leaves the store `[msgY, msgX]` unchanged. -/
theorem c9_idempotent_when_fits_witness :
    Server1.admission dt0 200 msgX [msgY, msgX] 4294967295 =
      some ([msgY, msgX], max 4294967295 msgX.current_pow, "ok\n") :=
  c9_idempotent_when_fits dt0 200 4294967295 4294967295 msgX [msgY] [msgY, msgX]
    (by decide) (by decide)

/-- C7: `parse` populates the parsed fields exactly when it returns the empty
string: on every non-empty diagnostic the message object comes back exactly
as it went in, and on `""` all of `timestamp_str`, `timestamp_obj`, `nonce`,
`checksum`, `payload`, `initial_pow` and `current_pow` have been assigned. -/
theorem c7_parse_assigns_iff (self : Message_v0.Msg) (s : String)
    (required_pow : Nat) (now : Message_v0.DT) :
    ((Message_v0.parse self s required_pow now).2 ≠ "" →
      (Message_v0.parse self s required_pow now).1 = self) ∧
    ((Message_v0.parse self s required_pow now).2 = "" →
      (Message_v0.parse self s required_pow now).1.timestamp_str.isSome ∧
      (Message_v0.parse self s required_pow now).1.timestamp_obj.isSome ∧
      (Message_v0.parse self s required_pow now).1.nonce.isSome ∧
      (Message_v0.parse self s required_pow now).1.checksum.isSome ∧
      (Message_v0.parse self s required_pow now).1.payload.isSome ∧
      (Message_v0.parse self s required_pow now).1.initial_pow.isSome ∧
      (Message_v0.parse self s required_pow now).1.current_pow.isSome) := by
  simp only [Message_v0.parse]
  rcases hs : Message_v0.strptime14 (Message_v0.tsOf s.data) with _ | tsObj <;>
    simp only [hs] <;> split_ifs <;> refine ⟨fun hx => ?_, fun hx => ?_⟩ <;>
    dsimp only at hx ⊢ <;>
    first
      | rfl
      | (exact absurd hx (by decide))
      | (exact absurd hx (append_left_ne_empty _ _ (append_left_ne_empty _ _ (by decide))))
      | (exact absurd hx (append_left_ne_empty _ _ (append_left_ne_empty _ _
          (append_left_ne_empty _ _ (append_left_ne_empty _ _ (by decide))))))
      | (exact absurd rfl hx)
      | simp

/-- C7 witness at a concrete failing frame. -/
theorem c7_parse_assigns_iff_witness :
    ((Message_v0.parse Message_v0.Msg.mk0 "hi" 0 dt0).2 ≠ "" →
      (Message_v0.parse Message_v0.Msg.mk0 "hi" 0 dt0).1 = Message_v0.Msg.mk0) ∧
    ((Message_v0.parse Message_v0.Msg.mk0 "hi" 0 dt0).2 = "" →
      (Message_v0.parse Message_v0.Msg.mk0 "hi" 0 dt0).1.timestamp_str.isSome ∧
      (Message_v0.parse Message_v0.Msg.mk0 "hi" 0 dt0).1.timestamp_obj.isSome ∧
      (Message_v0.parse Message_v0.Msg.mk0 "hi" 0 dt0).1.nonce.isSome ∧
      (Message_v0.parse Message_v0.Msg.mk0 "hi" 0 dt0).1.checksum.isSome ∧
      (Message_v0.parse Message_v0.Msg.mk0 "hi" 0 dt0).1.payload.isSome ∧
      (Message_v0.parse Message_v0.Msg.mk0 "hi" 0 dt0).1.initial_pow.isSome ∧
      (Message_v0.parse Message_v0.Msg.mk0 "hi" 0 dt0).1.current_pow.isSome) :=
  c7_parse_assigns_iff Message_v0.Msg.mk0 "hi" 0 dt0

/-- A successful `parse` assigns a `current_pow` clamped to `2^32 − 1`. -/
theorem parse_ok_current_le (self : Message_v0.Msg) (s : String)
    (required_pow : Nat) (now : Message_v0.DT)
    (h : (Message_v0.parse self s required_pow now).2 = "") :
    ∃ c, (Message_v0.parse self s required_pow now).1.current_pow = some c ∧
      c ≤ 2 ^ (4 * Message_v0.pow_bytes) - 1 := by
  revert h
  simp only [Message_v0.parse]
  rcases hs : Message_v0.strptime14 (Message_v0.tsOf s.data) with _ | tsObj <;>
    simp only [hs] <;> split_ifs <;> intro h <;> dsimp only at h ⊢ <;>
    first
      | (exact absurd h (by decide))
      | (exact absurd h (append_left_ne_empty _ _ (append_left_ne_empty _ _ (by decide))))
      | (exact absurd h (append_left_ne_empty _ _ (append_left_ne_empty _ _
          (append_left_ne_empty _ _ (append_left_ne_empty _ _ (by decide))))))
      | (refine ⟨_, rfl, ?_⟩; unfold Message_v0.currentPow; exact Nat.min_le_left _ _)

/-- A message accepted by `pmOf` carries exactly the object's `current_pow`. -/
theorem pmOf_current (m : Message_v0.Msg) (p : Server1.PMsg)
    (h : Server1.pmOf m = some p) : m.current_pow = some p.current_pow := by
  unfold Server1.pmOf at h
  repeat' split at h
  all_goals first
    | (injection h with h2; subst h2; assumption)
    | simp_all

/-- C10: every reachable server state keeps `required_pow` at its initial
value `2^(4·pow_bytes) − 1 = 2^32 − 1`: a parsed message's `current_pow` is
clamped to at most `2^32 − 1`, so the watermark update
`required_pow = max(required_pow, current_pow)` never changes it, and with it
the verifier's threshold and the `__info__` reply are constant for the life
of the process. -/
theorem c10_required_pow_constant (now : Message_v0.DT) (max_storage : Nat)
    (st : List Server1.PMsg × Nat) (h : Server1.Reach now max_storage st) :
    st.2 = 2 ^ (4 * Message_v0.pow_bytes) - 1 := by
  induction h with
  | init => rfl
  | step st₀ st₁ s hr heq ih =>
    simp only [Server1.handleStep] at heq
    split_ifs at heq with hdiag hctl
    · injection heq with h2; subst h2; exact ih
    · injection heq with h2; subst h2; exact ih
    · rcases hpm : Server1.pmOf (Message_v0.parse Message_v0.Msg.mk0 s st₀.2 now).1
          with _ | p
      · rw [hpm] at heq; injection heq with h2; subst h2; exact ih
      · rw [hpm] at heq
        dsimp only at heq
        rcases hadm : Server1.admission now max_storage p st₀.1 st₀.2
            with _ | ⟨store2, r2, reply⟩
        · rw [hadm] at heq; exact absurd heq (by simp)
        · rw [hadm] at heq
          simp only [Option.map_some', Option.some.injEq] at heq
          have hr2 : r2 = st₀.2 ∨ r2 = max st₀.2 p.current_pow := by
            unfold Server1.admission at hadm
            rcases hev : Server1.evictLoop now max_storage
                (Server1.wireList p).length p.current_pow (st₀.1.length + 1) st₀.1
                with _ | ⟨store', wc⟩
            · rw [hev] at hadm; exact absurd hadm (by simp)
            · rw [hev] at hadm
              rcases wc with _ | wc <;>
                simp only [Option.some.injEq, Prod.mk.injEq] at hadm
              · exact Or.inr hadm.2.1.symm
              · exact Or.inl hadm.2.1.symm
          have hcur : p.current_pow ≤ 2 ^ (4 * Message_v0.pow_bytes) - 1 := by
            have hok : (Message_v0.parse Message_v0.Msg.mk0 s st₀.2 now).2 = "" :=
              not_not.mp hdiag
            obtain ⟨c, hc1, hc2⟩ :=
              parse_ok_current_le Message_v0.Msg.mk0 s st₀.2 now hok
            rw [pmOf_current _ _ hpm] at hc1
            injection hc1 with h3
            rw [h3]; exact hc2
          rw [← heq]
          rcases hr2 with h4 | h4
          · rw [h4]; exact ih
          · rw [h4, ih]; exact Nat.max_eq_left hcur

/-- C10 witness: the initial state, and the state after one full interaction
on a malformed frame, both carry the initial watermark. -/
theorem c10_required_pow_constant_witness :
    (([], 2 ^ (4 * Message_v0.pow_bytes) - 1) : List Server1.PMsg × Nat).2 =
      2 ^ (4 * Message_v0.pow_bytes) - 1 :=
  c10_required_pow_constant dt0 128 _
    (Server1.Reach.step _ _ "hi" Server1.Reach.init (by decide))

/-- The search loop finds nothing when no candidate in its window succeeds. -/
theorem findNonce_eq_none (ts cs : String) (r : Nat) :
    ∀ fuel i, (∀ j, i ≤ j → j < i + fuel →
      ¬ Message_v0.get_initial_pow ts (Message_v0.nonceAt j) cs (Message_v0.pow_target : Int) < r) →
    Message_v0.findNonce ts cs r i fuel = none := by
  intro fuel
  induction fuel with
  | zero => intro i h; rfl
  | succ n ih =>
    intro i h
    simp only [Message_v0.findNonce]
    rw [if_neg (h i (Nat.le_refl i) (by omega))]
    exact ih (i + 1) (fun j hj1 hj2 => h j (by omega) (by omega))

/-- The search loop returns the first success in its window, with the count
of candidates tried. -/
theorem findNonce_eq_some (ts cs : String) (r : Nat) :
    ∀ fuel i k, i ≤ k → k < i + fuel →
      Message_v0.get_initial_pow ts (Message_v0.nonceAt k) cs (Message_v0.pow_target : Int) < r →
      (∀ j, i ≤ j → j < k →
        ¬ Message_v0.get_initial_pow ts (Message_v0.nonceAt j) cs (Message_v0.pow_target : Int) < r) →
      Message_v0.findNonce ts cs r i fuel =
        some (Message_v0.nonceAt k,
          Message_v0.get_initial_pow ts (Message_v0.nonceAt k) cs (Message_v0.pow_target : Int),
          k + 1) := by
  intro fuel
  induction fuel with
  | zero => intro i k h1 h2 h3 h4; omega
  | succ n ih =>
    intro i k h1 h2 h3 h4
    simp only [Message_v0.findNonce]
    by_cases hi : Message_v0.get_initial_pow ts (Message_v0.nonceAt i) cs
        (Message_v0.pow_target : Int) < r
    · have hik : k = i := by
        by_contra hne
        exact h4 i (Nat.le_refl i) (by omega) hi
      subst hik
      rw [if_pos hi]
    · rw [if_neg hi]
      have hik : i ≠ k := fun he => hi (he ▸ h3)
      exact ih (i + 1) k (by omega) (by omega) h3 (fun j hj1 hj2 => h4 j (by omega) hj2)

/-- C4: the miner scans the 10-character nonce space in `product` order
starting at `aaaaaaaaaa`; whenever some candidate's initial PoW is strictly
below the effective bound, it stops at the lexicographically first such
candidate, stores its nonce and initial PoW, and returns the number of
candidates tried including the winner; when no candidate in the whole 62^10
space succeeds it raises (`none`). -/
theorem c4_update_nonce (ts cs : String) (required_pow : Int) :
    ((∃ k, k < 62 ^ Message_v0.nonce_bytes ∧
        Message_v0.minerPow ts cs k < Message_v0.minerBound required_pow) →
      ∃ k₀, k₀ < 62 ^ Message_v0.nonce_bytes ∧
        Message_v0.minerPow ts cs k₀ < Message_v0.minerBound required_pow ∧
        (∀ j, j < k₀ → ¬ Message_v0.minerPow ts cs j < Message_v0.minerBound required_pow) ∧
        Message_v0.update_nonce ts cs required_pow =
          some (Message_v0.nonceAt k₀, Message_v0.minerPow ts cs k₀, k₀ + 1)) ∧
    ((∀ k, k < 62 ^ Message_v0.nonce_bytes →
        ¬ Message_v0.minerPow ts cs k < Message_v0.minerBound required_pow) →
      Message_v0.update_nonce ts cs required_pow = none) := by
  constructor
  · rintro ⟨k, hk, hsucc⟩
    have hex : ∃ j, Message_v0.minerPow ts cs j < Message_v0.minerBound required_pow :=
      ⟨k, hsucc⟩
    refine ⟨Nat.find hex, ?_, Nat.find_spec hex,
      fun j hj => Nat.find_min hex hj, ?_⟩
    · exact lt_of_le_of_lt (Nat.find_min' hex hsucc) hk
    · exact findNonce_eq_some ts cs (Message_v0.minerBound required_pow)
        (62 ^ Message_v0.nonce_bytes) 0 (Nat.find hex) (Nat.zero_le _)
        (by have := lt_of_le_of_lt (Nat.find_min' hex hsucc) hk; omega)
        (Nat.find_spec hex) (fun j hj1 hj2 => Nat.find_min hex hj2)
  · intro hall
    exact findNonce_eq_none ts cs (Message_v0.minerBound required_pow)
      (62 ^ Message_v0.nonce_bytes) 0 (fun j hj1 hj2 => hall j (by omega))

/-- C4 witness: mining the empty-payload message at the `-1` default bound
stops at the very first candidate `aaaaaaaaaa` after one try. -/
theorem c4_update_nonce_witness :
    Message_v0.update_nonce "20000102030405" "e3b0c44298fc" (-1) =
      some ("aaaaaaaaaa", 1270388943, 1) := by
  obtain ⟨k₀, hlt, hsucc, hmin, heq⟩ :=
    (c4_update_nonce "20000102030405" "e3b0c44298fc" (-1)).1 ⟨0, by decide, by decide⟩
  have hk0 : k₀ = 0 := by
    by_contra hne
    exact hmin 0 (by omega) (by decide)
  subst hk0
  rw [heq]
  decide

/-- Digit folding from an arbitrary accumulator. -/
theorem digitsVal_go : ∀ (l : List Char) (a : Nat),
    l.foldl (fun a c => a * 10 + (c.toNat - 48)) a =
      a * 10 ^ l.length + l.foldl (fun a c => a * 10 + (c.toNat - 48)) 0 := by
  intro l
  induction l with
  | nil => intro a; simp
  | cons c r ih =>
    intro a
    simp only [List.foldl_cons, List.length_cons]
    rw [ih (a * 10 + (c.toNat - 48)), ih (0 * 10 + (c.toNat - 48))]
    ring

theorem digitsVal_cons (c : Char) (r : List Char) :
    Message_v0.digitsVal (c :: r) = (c.toNat - 48) * 10 ^ r.length + Message_v0.digitsVal r := by
  unfold Message_v0.digitsVal
  simp only [List.foldl_cons]
  rw [digitsVal_go r (0 * 10 + (c.toNat - 48))]
  ring_nf

theorem digitsVal_append (xs ys : List Char) :
    Message_v0.digitsVal (xs ++ ys) =
      Message_v0.digitsVal xs * 10 ^ ys.length + Message_v0.digitsVal ys := by
  unfold Message_v0.digitsVal
  rw [List.foldl_append, digitsVal_go ys]

theorem digitsVal_lt (l : List Char) (h : ∀ c ∈ l, c.toNat - 48 < 10) :
    Message_v0.digitsVal l < 10 ^ l.length := by
  induction l with
  | nil => simp [Message_v0.digitsVal]
  | cons c r ih =>
    rw [digitsVal_cons]
    have hc := h c (List.mem_cons_self c r)
    have hr := ih (fun d hd => h d (List.mem_cons_of_mem _ hd))
    calc (c.toNat - 48) * 10 ^ r.length + Message_v0.digitsVal r
        < (c.toNat - 48) * 10 ^ r.length + 10 ^ r.length := by omega
      _ = ((c.toNat - 48) + 1) * 10 ^ r.length := by ring
      _ ≤ 10 * 10 ^ r.length := Nat.mul_le_mul_right _ (by omega)
      _ = 10 ^ (c :: r).length := by rw [List.length_cons]; ring

theorem padNat_length (w n : Nat) : (Message_v0.padNat w n).length = w := by
  induction w generalizing n with
  | zero => rfl
  | succ k ih => simp [Message_v0.padNat, ih]

theorem padNat_mem (w n : Nat) (c : Char) (h : c ∈ Message_v0.padNat w n) :
    ∃ k, k < 10 ∧ c = Char.ofNat (48 + k) := by
  induction w generalizing n with
  | zero => simp [Message_v0.padNat] at h
  | succ k ih =>
    simp only [Message_v0.padNat, List.mem_append, List.mem_singleton] at h
    rcases h with h | h
    · exact ih _ h
    · exact ⟨n % 10, Nat.mod_lt _ (by omega), h⟩

theorem digit_char_toNat : ∀ k, k < 10 → (Char.ofNat (48 + k)).toNat = 48 + k := by decide

theorem digit_char_isDigit : ∀ k, k < 10 → (Char.ofNat (48 + k)).isDigit = true := by decide

theorem padNat_val (w : Nat) : ∀ n, n < 10 ^ w →
    Message_v0.digitsVal (Message_v0.padNat w n) = n := by
  induction w with
  | zero =>
    intro n h
    have : n = 0 := by simpa using h
    subst this; rfl
  | succ k ih =>
    intro n h
    show Message_v0.digitsVal (Message_v0.padNat k (n / 10) ++ [Char.ofNat (48 + n % 10)]) = n
    rw [digitsVal_append]
    have h1 : Message_v0.digitsVal [Char.ofNat (48 + n % 10)] = n % 10 := by
      rw [show ([Char.ofNat (48 + n % 10)] : List Char) =
        Char.ofNat (48 + n % 10) :: [] from rfl, digitsVal_cons]
      rw [digit_char_toNat (n % 10) (Nat.mod_lt _ (by omega))]
      simp [Message_v0.digitsVal]
    have h2 : n / 10 < 10 ^ k := by
      have hp : 10 ^ (k + 1) = 10 ^ k * 10 := pow_succ 10 k
      rw [hp] at h
      omega
    rw [h1, ih (n / 10) h2]
    simp
    omega

theorem listGt_false_of_le : ∀ l₁ l₂ : List Char, l₁.length = l₂.length →
    (∀ c ∈ l₁, 48 ≤ c.toNat ∧ c.toNat ≤ 57) →
    (∀ c ∈ l₂, 48 ≤ c.toNat ∧ c.toNat ≤ 57) →
    Message_v0.digitsVal l₁ ≤ Message_v0.digitsVal l₂ →
    Message_v0.listGt l₁ l₂ = false := by
  intro l₁
  induction l₁ with
  | nil => intro l₂ _ _ _ _; rfl
  | cons a xs ih =>
    intro l₂ hlen h1 h2 hle
    rcases l₂ with _ | ⟨b, ys⟩
    · simp at hlen
    · simp only [Message_v0.listGt]
      have hxy : xs.length = ys.length := by simpa using hlen
      have ha := h1 a (List.mem_cons_self a xs)
      have hb := h2 b (List.mem_cons_self b ys)
      have hvx : Message_v0.digitsVal xs < 10 ^ xs.length :=
        digitsVal_lt xs (fun c hc => by have := h1 c (List.mem_cons_of_mem _ hc); omega)
      have hvy : Message_v0.digitsVal ys < 10 ^ ys.length :=
        digitsVal_lt ys (fun c hc => by have := h2 c (List.mem_cons_of_mem _ hc); omega)
      rw [digitsVal_cons, digitsVal_cons, hxy] at hle
      by_cases hba : b.toNat < a.toNat
      · exfalso
        have hgt : (b.toNat - 48) * 10 ^ ys.length + Message_v0.digitsVal ys <
            (a.toNat - 48) * 10 ^ ys.length + Message_v0.digitsVal xs := by
          calc (b.toNat - 48) * 10 ^ ys.length + Message_v0.digitsVal ys
              < (b.toNat - 48) * 10 ^ ys.length + 10 ^ ys.length := by omega
            _ = ((b.toNat - 48) + 1) * 10 ^ ys.length := by ring
            _ ≤ (a.toNat - 48) * 10 ^ ys.length := Nat.mul_le_mul_right _ (by omega)
            _ ≤ (a.toNat - 48) * 10 ^ ys.length + Message_v0.digitsVal xs :=
                Nat.le_add_right _ _
        omega
      · rw [if_neg hba]
        by_cases hab : a.toNat < b.toNat
        · rw [if_pos hab]
        · rw [if_neg hab]
          apply ih ys hxy (fun c hc => h1 c (List.mem_cons_of_mem _ hc))
            (fun c hc => h2 c (List.mem_cons_of_mem _ hc))
          have hd : a.toNat - 48 = b.toNat - 48 := by omega
          rw [hd] at hle
          exact Nat.le_of_add_le_add_left hle

theorem strftime_data (d : Message_v0.DT) :
    (Message_v0.strftime d).data =
      Message_v0.padNat 4 d.year ++ (Message_v0.padNat 2 d.month ++
        (Message_v0.padNat 2 d.day ++ (Message_v0.padNat 2 d.hour ++
          (Message_v0.padNat 2 d.minute ++ Message_v0.padNat 2 d.second)))) := by
  simp [Message_v0.strftime, List.append_assoc]

theorem strftime_len (d : Message_v0.DT) : (Message_v0.strftime d).data.length = 14 := by
  rw [strftime_data]
  simp [padNat_length]

theorem strftime_mem (d : Message_v0.DT) (c : Char) (h : c ∈ (Message_v0.strftime d).data) :
    ∃ k, k < 10 ∧ c = Char.ofNat (48 + k) := by
  rw [strftime_data] at h
  simp only [List.mem_append] at h
  rcases h with h | h | h | h | h | h <;> exact padNat_mem _ _ _ h

theorem daysInMonth_le (y m : Nat) : Message_v0.daysInMonth y m ≤ 31 := by
  unfold Message_v0.daysInMonth
  split_ifs <;> omega

theorem digitsVal_strftime (d : Message_v0.DT) (h : Message_v0.validDT d) :
    Message_v0.digitsVal (Message_v0.strftime d).data = Message_v0.dtKey d := by
  obtain ⟨h1, h2, h3, h4, h5, h6, h7, h8, h9⟩ := h
  have hd31 : d.day ≤ 31 := le_trans h6 (daysInMonth_le _ _)
  rw [strftime_data, digitsVal_append, digitsVal_append, digitsVal_append,
    digitsVal_append, digitsVal_append]
  rw [padNat_val 4 d.year (by norm_num; omega), padNat_val 2 d.month (by norm_num; omega),
    padNat_val 2 d.day (by norm_num; omega), padNat_val 2 d.hour (by norm_num; omega),
    padNat_val 2 d.minute (by norm_num; omega), padNat_val 2 d.second (by norm_num; omega)]
  simp only [List.length_append, padNat_length, Message_v0.dtKey]
  ring

theorem strftime_not_gt (a b : Message_v0.DT) (ha : Message_v0.validDT a)
    (hb : Message_v0.validDT b) (hle : Message_v0.dtKey a ≤ Message_v0.dtKey b) :
    Message_v0.listGt (Message_v0.strftime a).data (Message_v0.strftime b).data = false := by
  apply listGt_false_of_le
  · rw [strftime_len, strftime_len]
  · intro c hc
    obtain ⟨k, hk, rfl⟩ := strftime_mem a c hc
    rw [digit_char_toNat k hk]; omega
  · intro c hc
    obtain ⟨k, hk, rfl⟩ := strftime_mem b c hc
    rw [digit_char_toNat k hk]; omega
  · rw [digitsVal_strftime a ha, digitsVal_strftime b hb]; exact hle

theorem strptime14_strftime (d : Message_v0.DT) (h : Message_v0.validDT d) :
    Message_v0.strptime14 (Message_v0.strftime d).data = some d := by
  obtain ⟨h1, h2, h3, h4, h5, h6, h7, h8, h9⟩ := h
  have hd31 : d.day ≤ 31 := le_trans h6 (daysInMonth_le _ _)
  have hall : Message_v0.allDigits (Message_v0.strftime d).data = true := by
    unfold Message_v0.allDigits
    rw [List.all_eq_true]
    intro c hc
    obtain ⟨k, hk, rfl⟩ := strftime_mem d c hc
    exact digit_char_isDigit k hk
  have e0 : (Message_v0.strftime d).data.take 4 = Message_v0.padNat 4 d.year := by
    rw [strftime_data]; exact List.take_left' (padNat_length 4 d.year)
  have d4 : (Message_v0.strftime d).data.drop 4 =
      Message_v0.padNat 2 d.month ++ (Message_v0.padNat 2 d.day ++
        (Message_v0.padNat 2 d.hour ++ (Message_v0.padNat 2 d.minute ++
          Message_v0.padNat 2 d.second))) := by
    rw [strftime_data]; exact List.drop_left' (padNat_length 4 d.year)
  have d6 : (Message_v0.strftime d).data.drop 6 =
      Message_v0.padNat 2 d.day ++ (Message_v0.padNat 2 d.hour ++
        (Message_v0.padNat 2 d.minute ++ Message_v0.padNat 2 d.second)) := by
    have : ((Message_v0.strftime d).data.drop 4).drop 2 = (Message_v0.strftime d).data.drop 6 := by
      rw [List.drop_drop]
    rw [← this, d4]; exact List.drop_left' (padNat_length 2 d.month)
  have d8 : (Message_v0.strftime d).data.drop 8 =
      Message_v0.padNat 2 d.hour ++ (Message_v0.padNat 2 d.minute ++
        Message_v0.padNat 2 d.second) := by
    have : ((Message_v0.strftime d).data.drop 6).drop 2 = (Message_v0.strftime d).data.drop 8 := by
      rw [List.drop_drop]
    rw [← this, d6]; exact List.drop_left' (padNat_length 2 d.day)
  have d10 : (Message_v0.strftime d).data.drop 10 =
      Message_v0.padNat 2 d.minute ++ Message_v0.padNat 2 d.second := by
    have : ((Message_v0.strftime d).data.drop 8).drop 2 = (Message_v0.strftime d).data.drop 10 := by
      rw [List.drop_drop]
    rw [← this, d8]; exact List.drop_left' (padNat_length 2 d.hour)
  have d12 : (Message_v0.strftime d).data.drop 12 = Message_v0.padNat 2 d.second := by
    have : ((Message_v0.strftime d).data.drop 10).drop 2 =
        (Message_v0.strftime d).data.drop 12 := by
      rw [List.drop_drop]
    rw [← this, d10]; exact List.drop_left' (padNat_length 2 d.minute)
  have t4 : ((Message_v0.strftime d).data.drop 4).take 2 = Message_v0.padNat 2 d.month := by
    rw [d4]; exact List.take_left' (padNat_length 2 d.month)
  have t6 : ((Message_v0.strftime d).data.drop 6).take 2 = Message_v0.padNat 2 d.day := by
    rw [d6]; exact List.take_left' (padNat_length 2 d.day)
  have t8 : ((Message_v0.strftime d).data.drop 8).take 2 = Message_v0.padNat 2 d.hour := by
    rw [d8]; exact List.take_left' (padNat_length 2 d.hour)
  have t10 : ((Message_v0.strftime d).data.drop 10).take 2 = Message_v0.padNat 2 d.minute := by
    rw [d10]; exact List.take_left' (padNat_length 2 d.minute)
  have t12 : ((Message_v0.strftime d).data.drop 12).take 2 = Message_v0.padNat 2 d.second := by
    rw [d12]
    have h2s : (Message_v0.padNat 2 d.second).take 2 = Message_v0.padNat 2 d.second := by
      apply List.take_of_length_le
      rw [padNat_length]
    exact h2s
  unfold Message_v0.strptime14
  rw [if_pos ⟨strftime_len d, hall⟩]
  simp only [e0, t4, t6, t8, t10, t12]
  rw [padNat_val 4 d.year (by norm_num; omega), padNat_val 2 d.month (by norm_num; omega),
    padNat_val 2 d.day (by norm_num; omega),
    padNat_val 2 d.hour (by norm_num; omega), padNat_val 2 d.minute (by norm_num; omega),
    padNat_val 2 d.second (by norm_num; omega)]
  rw [if_pos ⟨h1, h3, h4, h5, h6, h7, h8, h9⟩]

theorem digit_char_not_ws : ∀ k, k < 10 → Message_v0.pyWs (Char.ofNat (48 + k)) = false := by
  decide

theorem digit_char_ne_underscore : ∀ k, k < 10 → ¬ (Char.ofNat (48 + k) = '_') := by decide

theorem digit_char_ne_sign : ∀ k, k < 10 →
    ¬ (Char.ofNat (48 + k) = '+' ∨ Char.ofNat (48 + k) = '-') := by decide

theorem digitsTail_all (l : List Char)
    (h : ∀ c ∈ l, ∃ k, k < 10 ∧ c = Char.ofNat (48 + k)) :
    Message_v0.digitsTail l = true := by
  induction l with
  | nil => rfl
  | cons c r ih =>
    obtain ⟨k, hk, hck⟩ := h c (List.mem_cons_self c r)
    unfold Message_v0.digitsTail
    rw [if_neg (by rw [hck]; exact digit_char_ne_underscore k hk)]
    show (c.isDigit && Message_v0.digitsTail r) = true
    rw [hck, digit_char_isDigit k hk,
      ih (fun c hc => h c (List.mem_cons_of_mem _ hc))]
    rfl

theorem digitsOk_all (l : List Char) (hne : l ≠ [])
    (h : ∀ c ∈ l, ∃ k, k < 10 ∧ c = Char.ofNat (48 + k)) :
    Message_v0.digitsOk l = true := by
  rcases l with _ | ⟨c, r⟩
  · exact absurd rfl hne
  · obtain ⟨k, hk, hck⟩ := h _ (List.mem_cons_self _ _)
    simp only [Message_v0.digitsOk]
    rw [hck, digit_char_isDigit k hk,
      digitsTail_all r (fun c hc => h c (List.mem_cons_of_mem _ hc))]
    rfl

theorem stripWs_digits (l : List Char)
    (h : ∀ c ∈ l, ∃ k, k < 10 ∧ c = Char.ofNat (48 + k)) :
    Message_v0.stripWs l = l := by
  unfold Message_v0.stripWs
  have h1 : l.dropWhile (fun c => Message_v0.pyWs c) = l := by
    rcases l with _ | ⟨c, r⟩
    · rfl
    · rw [List.dropWhile_cons]
      obtain ⟨k, hk, hck⟩ := h _ (List.mem_cons_self _ _)
      rw [hck, digit_char_not_ws k hk]
      simp
  rw [h1]
  have h2 : l.reverse.dropWhile (fun c => Message_v0.pyWs c) = l.reverse := by
    rcases hrev : l.reverse with _ | ⟨c, r⟩
    · rfl
    · rw [List.dropWhile_cons]
      have hc : c ∈ l := by
        have : c ∈ l.reverse := by rw [hrev]; exact List.mem_cons_self _ _
        exact List.mem_reverse.mp this
      obtain ⟨k, hk, hck⟩ := h _ hc
      rw [hck, digit_char_not_ws k hk]
      simp
  rw [h2, List.reverse_reverse]

theorem pyIntOk_digits (l : List Char) (hne : l ≠ [])
    (h : ∀ c ∈ l, ∃ k, k < 10 ∧ c = Char.ofNat (48 + k)) :
    Message_v0.pyIntOk l = true := by
  unfold Message_v0.pyIntOk
  rw [stripWs_digits l h]
  rcases l with _ | ⟨c, r⟩
  · exact absurd rfl hne
  · obtain ⟨k, hk, hck⟩ := h _ (List.mem_cons_self _ _)
    dsimp only
    rw [if_neg (show ¬ (c = '+' ∨ c = '-') by rw [hck]; exact digit_char_ne_sign k hk)]
    exact digitsOk_all (c :: r) (by simp) h

theorem hexCharVal_le (c : Char) : P2pIM.hexCharVal c ≤ 15 := by
  unfold P2pIM.hexCharVal
  split_ifs <;> omega

theorem hexToNat_go (l : List Char) :
    ∀ a, l.foldl (fun a c => a * 16 + P2pIM.hexCharVal c) a < (a + 1) * 16 ^ l.length := by
  induction l with
  | nil => intro a; simp
  | cons c r ih =>
    intro a
    simp only [List.foldl_cons, List.length_cons]
    apply lt_of_lt_of_le (ih (a * 16 + P2pIM.hexCharVal c))
    have hc := hexCharVal_le c
    calc (a * 16 + P2pIM.hexCharVal c + 1) * 16 ^ r.length
        ≤ ((a + 1) * 16) * 16 ^ r.length := Nat.mul_le_mul_right _ (by omega)
      _ = (a + 1) * 16 ^ (r.length + 1) := by ring

theorem hexToNat_lt (l : List Char) : P2pIM.hexToNat l < 16 ^ l.length := by
  have := hexToNat_go l 0
  simpa [P2pIM.hexToNat] using this

theorem sha256_length (m : List Nat) : (P2pIM.sha256 m).length = 32 := by
  unfold P2pIM.sha256 P2pIM.be4
  simp

theorem hexOfBytes_length (bs : List Nat) : (P2pIM.hexOfBytes bs).length = 2 * bs.length := by
  induction bs with
  | nil => rfl
  | cons b r ih =>
    unfold P2pIM.hexOfBytes at *
    simp only [List.map_cons, List.flatten_cons, List.length_append, List.length_cons, ih,
      P2pIM.byteHex, List.length_nil]
    omega

theorem hexdigest_length (m : List Nat) : (P2pIM.hexdigest m).length = 64 := by
  unfold P2pIM.hexdigest
  rw [hexOfBytes_length, sha256_length]

theorem get_checksum_data_length (p : String) :
    (Message_v0.get_checksum p).data.length = 12 := by
  unfold Message_v0.get_checksum
  show (List.take Message_v0.checksum_bytes (P2pIM.hexdigest (P2pIM.strBytes p))).length = 12
  rw [List.length_take, hexdigest_length]
  rfl

theorem initial_pow_le (t n c : String) :
    Message_v0.get_initial_pow t n c (Message_v0.pow_target : Int) ≤
      2 ^ (4 * Message_v0.pow_bytes) - 1 := by
  unfold Message_v0.get_initial_pow
  have h1 := hexToNat_lt ((P2pIM.hexdigest
    (P2pIM.strBytes t ++ P2pIM.strBytes n ++ P2pIM.strBytes c)).take Message_v0.pow_bytes)
  have h2 : ((P2pIM.hexdigest
      (P2pIM.strBytes t ++ P2pIM.strBytes n ++ P2pIM.strBytes c)).take
        Message_v0.pow_bytes).length = 8 := by
    rw [List.length_take, hexdigest_length]; rfl
  rw [h2] at h1
  have h3 : (16 : Nat) ^ 8 = 4294967296 := by norm_num
  rw [h3] at h1
  have h4 : Message_v0.pow_target = 4294967295 := rfl
  have h5 : (2 : Nat) ^ (4 * Message_v0.pow_bytes) - 1 = 4294967295 := rfl
  rw [h4, h5]
  omega

theorem pySlice_append (l₁ l₂ l₃ : List Char) (a b : Nat)
    (h₁ : l₁.length = a) (h₂ : l₂.length = b - a) :
    Message_v0.pySlice (l₁ ++ (l₂ ++ l₃)) a b = l₂ := by
  unfold Message_v0.pySlice
  rw [List.drop_left' h₁, ← h₂, List.take_left]

/-- C5: parsing the wire form of a fully initialized valid message whose
timestamp is not after `now`, against any `required_pow` at least the PoW
ceiling `2^32 − 1` (the spec's "unbounded"), succeeds and reconstructs the
version, timestamp (string and instant), nonce, checksum and payload exactly,
with the PoW fields recomputed from the frame. -/
theorem c5_roundtrip (m : Server1.PMsg) (now : Message_v0.DT) (required_pow : Nat)
    (hv : Server1.ValidP m) (hnow : Message_v0.validDT now)
    (hreq : 2 ^ (4 * Message_v0.pow_bytes) - 1 ≤ required_pow)
    (hle : Message_v0.dtKey m.timestamp_obj ≤ Message_v0.dtKey now) :
    Message_v0.parse Message_v0.Msg.mk0 (Server1.wireStr m) required_pow now =
      ({ version := "0", timestamp_str := some m.timestamp_str,
         timestamp_obj := some m.timestamp_obj, nonce := some m.nonce,
         checksum := some m.checksum, payload := some m.payload,
         initial_pow := some m.initial_pow,
         current_pow := some (Message_v0.currentPow m.initial_pow
           (Message_v0.ageF now m.timestamp_obj)
           (Message_v0.sizeF (Server1.wireList m).length)),
         utc_now := none }, "") := by
  obtain ⟨hvd, htss, hn, hc, hip⟩ := hv
  have hmkAll : ∀ s : String, String.mk s.data = s := fun _ => rfl
  have hts14 : m.timestamp_str.data.length = 14 := by rw [htss]; exact strftime_len _
  have hn10 : m.nonce.data.length = 10 := hn
  have hc12 : m.checksum.data.length = 12 := by rw [hc]; exact get_checksum_data_length _
  have hwlen : (Server1.wireList m).length = 53 + m.payload.data.length := by
    simp [Server1.wireList, hts14, hn10, hc12]
    omega
  have hov : Message_v0.overhead_bytes = 53 := rfl
  have assoc1 : Server1.wireList m = "[\"0\",\"".data ++ (m.timestamp_str.data ++
      ("\",\"".data ++ (m.nonce.data ++ ("\",\"".data ++ (m.checksum.data ++
        ("\",\"".data ++ (m.payload.data ++ "\"]".data))))))) := by
    simp [Server1.wireList, List.append_assoc]
  have assoc2 : Server1.wireList m = ("[\"0\",\"".data ++ m.timestamp_str.data ++
      "\",\"".data) ++ (m.nonce.data ++ ("\",\"".data ++ (m.checksum.data ++
        ("\",\"".data ++ (m.payload.data ++ "\"]".data))))) := by
    simp [Server1.wireList, List.append_assoc]
  have assoc3 : Server1.wireList m = ("[\"0\",\"".data ++ m.timestamp_str.data ++
      "\",\"".data ++ m.nonce.data ++ "\",\"".data) ++ (m.checksum.data ++
        ("\",\"".data ++ (m.payload.data ++ "\"]".data))) := by
    simp [Server1.wireList, List.append_assoc]
  have assoc4 : Server1.wireList m = ("[\"0\",\"".data ++ m.timestamp_str.data ++
      "\",\"".data ++ m.nonce.data ++ "\",\"".data ++ m.checksum.data ++
      "\",\"".data) ++ (m.payload.data ++ "\"]".data) := by
    simp [Server1.wireList, List.append_assoc]
  have htsOf : Message_v0.tsOf (Server1.wireList m) = m.timestamp_str.data := by
    unfold Message_v0.tsOf
    rw [assoc1]
    exact pySlice_append _ _ _ _ _ (by decide) (by rw [hts14]; rfl)
  have hnonOf : Message_v0.nonceOf (Server1.wireList m) = m.nonce.data := by
    unfold Message_v0.nonceOf
    rw [assoc2]
    exact pySlice_append _ _ _ _ _ (by simp [hts14]; rfl) (by rw [hn10]; rfl)
  have hcsOf : Message_v0.checksumOf (Server1.wireList m) = m.checksum.data := by
    unfold Message_v0.checksumOf
    rw [assoc3]
    exact pySlice_append _ _ _ _ _ (by simp [hts14, hn10]; rfl) (by rw [hc12]; rfl)
  have hplOf : Message_v0.payloadOf (Server1.wireList m) = m.payload.data := by
    unfold Message_v0.payloadOf
    rw [hwlen, assoc4]
    exact pySlice_append _ _ _ _ _ (by simp [hts14, hn10, hc12]; rfl)
      (by have hps : Message_v0.p_start = 51 := rfl; rw [hps]; omega)
  have hipOf : Message_v0.initialPowOf (Server1.wireList m) = m.initial_pow := by
    unfold Message_v0.initialPowOf
    rw [htsOf, hnonOf, hcsOf]
    simp only [hmkAll]
    exact hip.symm
  have hdmk : (Server1.wireStr m).data = Server1.wireList m := rfl
  have hcond1 : ¬ ((Server1.wireList m).length < Message_v0.overhead_bytes) := by
    rw [hwlen, hov]; omega
  have htake : (Server1.wireList m).take 6 = "[\"0\",\"".data := by
    rw [assoc1]; exact List.take_left' (by decide)
  have hdropEnd : (Server1.wireList m).drop ((Server1.wireList m).length - 2) =
      "\"]".data := by
    show (("[\"0\",\"".data ++ m.timestamp_str.data ++ "\",\"".data ++ m.nonce.data ++
        "\",\"".data ++ m.checksum.data ++ "\",\"".data ++ m.payload.data) ++
        "\"]".data).drop ((Server1.wireList m).length - 2) = "\"]".data
    apply List.drop_left'
    rw [hwlen]
    simp [hts14, hn10, hc12]
    omega
  have hint : Message_v0.pyIntOk ((Message_v0.strftime m.timestamp_obj).data) = true := by
    apply pyIntOk_digits
    · intro h0
      have := strftime_len m.timestamp_obj
      rw [h0] at this
      simp at this
    · exact strftime_mem m.timestamp_obj
  have hfut : ¬ (Message_v0.listGt (Message_v0.strftime m.timestamp_obj).data
      (Message_v0.strftime now).data = true) := by
    rw [strftime_not_gt m.timestamp_obj now hvd hnow hle]
    simp
  have hpow : ¬ (Message_v0.initialPowOf (Server1.wireList m) > required_pow) := by
    rw [hipOf, hip]
    have h := initial_pow_le m.timestamp_str m.nonce m.checksum
    omega
  simp only [Message_v0.parse, Server1.wireStr, hdmk]
  simp only [htsOf, hnonOf, hcsOf, hplOf]
  rw [htss]
  rw [if_neg hcond1]
  rw [if_neg (not_not_intro htake)]
  rw [if_neg (not_not_intro hdropEnd)]
  rw [if_neg (not_not_intro hint)]
  rw [if_neg hfut]
  rw [if_neg hpow]
  rw [strptime14_strftime m.timestamp_obj hvd]
  dsimp only
  rw [if_neg (not_not_intro (show String.mk m.checksum.data =
    Message_v0.get_checksum (String.mk m.payload.data) from hc))]
  have hcur : ¬ (Message_v0.currentPow
      (Message_v0.initialPowOf (Server1.wireList m))
      (Message_v0.ageF now m.timestamp_obj)
      (Message_v0.sizeF (Server1.wireList m).length) > required_pow) := by
    have hc2 : Message_v0.currentPow
        (Message_v0.initialPowOf (Server1.wireList m))
        (Message_v0.ageF now m.timestamp_obj)
        (Message_v0.sizeF (Server1.wireList m).length) ≤
        2 ^ (4 * Message_v0.pow_bytes) - 1 := Nat.min_le_left _ _
    omega
  rw [if_neg hcur]
  simp only [hmkAll, hipOf]
  rfl

/-- C5 witness at the concrete empty-payload message, now equal to its
timestamp. -/
theorem c5_roundtrip_witness :
    Message_v0.parse Message_v0.Msg.mk0 (Server1.wireStr msgE) 4294967295 dt0 =
      ({ version := "0", timestamp_str := some msgE.timestamp_str,
         timestamp_obj := some msgE.timestamp_obj, nonce := some msgE.nonce,
         checksum := some msgE.checksum, payload := some msgE.payload,
         initial_pow := some msgE.initial_pow,
         current_pow := some (Message_v0.currentPow msgE.initial_pow
           (Message_v0.ageF dt0 msgE.timestamp_obj)
           (Message_v0.sizeF (Server1.wireList msgE).length)),
         utc_now := none }, "") :=
  c5_roundtrip msgE dt0 4294967295 (by decide) (by decide) (by decide) (by decide)
